import Mathlib

/-!
Verification of the goal-directed orchestration core of the
GeneNetworkAgent repository: the tool registry and its dependency
resolver, the dynamic iteration controller, and the Boolean-network
simulation primitives of the perturbation and dynamics modules.

The Python sources are shallowly embedded below.  Python dictionaries
are modelled as association lists in insertion order, Python floats as
rationals, and the Python expression evaluator is modelled on the
Boolean fragment that gene logic rules reach after name substitution
(literals True and False combined with the operators and, or, not and
parentheses); outside that fragment the model returns failure, as the
real evaluator raises an exception there.
-/

namespace GeneNet

/-! Python string primitives, modelled over lists of characters so that
they compute inside the kernel. -/

/-- Whitespace characters removed by the Python str.strip method. -/
def isPySpace (c : Char) : Bool :=
  c = ' ' || c = '\t' || c = '\n' || c = '\r'

/-- Model of the Python str.strip method. -/
def pyStrip (s : String) : String :=
  ⟨((s.data.dropWhile isPySpace).reverse.dropWhile isPySpace).reverse⟩

/-- Occurrence test, modelling the Python substring operator. -/
def occursIn (pat s : List Char) : Bool :=
  s.tails.any (fun t => pat.isPrefixOf t)

/-- Model of the Python str.replace method on character lists: scan left
to right, replacing non-overlapping occurrences of a non-empty pattern.
The fuel argument makes the recursion structural; it is called with the
length of the scanned list, which always suffices. -/
def pyReplaceCore (pat rep : List Char) : Nat → List Char → List Char
  | _, [] => []
  | 0, s => s
  | fuel + 1, c :: cs =>
    if pat.isPrefixOf (c :: cs) ∧ pat ≠ [] then
      rep ++ pyReplaceCore pat rep fuel ((c :: cs).drop pat.length)
    else
      c :: pyReplaceCore pat rep fuel cs

/-- Model of Python str.replace, including the empty-pattern case. -/
def pyReplace (s pat rep : String) : String :=
  if pat.data = [] then
    ⟨rep.data ++ s.data.flatMap (fun c => c :: rep.data)⟩
  else
    ⟨pyReplaceCore pat.data rep.data s.data.length s.data⟩

/-! Model of the Python eval call on the Boolean expression fragment
reached by substituted gene logic rules.  Tokenization fails (returns
none) on characters outside identifiers, parentheses and spaces, and
parsing fails on anything that is not a Boolean expression over the
keywords True, False, and, or, not; the real eval raises SyntaxError or
NameError in those situations, which the callers catch. -/

inductive PyTok where
  | tTrue : PyTok
  | tFalse : PyTok
  | tAnd : PyTok
  | tOr : PyTok
  | tNot : PyTok
  | tLParen : PyTok
  | tRParen : PyTok
deriving DecidableEq

/-- Characters that may form Python identifier-like words. -/
def isWordChar (c : Char) : Bool :=
  (('a' ≤ c ∧ c ≤ 'z') ∨ ('A' ≤ c ∧ c ≤ 'Z') ∨ ('0' ≤ c ∧ c ≤ '9') ∨ c = '_')

/-- Classify one identifier-like word, failing on unknown names just as
eval fails with NameError on an undefined identifier. -/
def classifyWord (w : List Char) : Option PyTok :=
  if w = "True".data then some .tTrue
  else if w = "False".data then some .tFalse
  else if w = "and".data then some .tAnd
  else if w = "or".data then some .tOr
  else if w = "not".data then some .tNot
  else none

/-- Tokenizer for the Boolean expression fragment.  The fuel argument
makes the recursion structural; it is called with the length of the
character list, which always suffices. -/
def pyTokenize : Nat → List Char → Option (List PyTok)
  | _, [] => some []
  | 0, _ => none
  | fuel + 1, c :: cs =>
    if isPySpace c then pyTokenize fuel cs
    else if c = '(' then
      match pyTokenize fuel cs with
      | some ts => some (.tLParen :: ts)
      | none => none
    else if c = ')' then
      match pyTokenize fuel cs with
      | some ts => some (.tRParen :: ts)
      | none => none
    else if isWordChar c then
      let w := c :: cs.takeWhile isWordChar
      let rest := cs.dropWhile isWordChar
      match classifyWord w, pyTokenize fuel rest with
      | some t, some ts => some (t :: ts)
      | _, _ => none
    else none

mutual

/-- Recursive-descent evaluation of the token stream with Python
precedence: or binds weakest, then and, then not.  The fuel argument
bounds recursion depth; it is always called with enough fuel for the
token list. -/
def parseLevel (fuel : Nat) (lvl : Nat) (ts : List PyTok) :
    Option (Bool × List PyTok) :=
  match fuel with
  | 0 => none
  | fuel + 1 =>
    match lvl with
    | 0 =>
      -- or-level: and-level followed by (or and-level)*
      match parseLevel fuel 1 ts with
      | none => none
      | some (v, rest) => parseOrTail fuel v rest
    | 1 =>
      match parseLevel fuel 2 ts with
      | none => none
      | some (v, rest) => parseAndTail fuel v rest
    | _ =>
      -- not-level and atoms
      match ts with
      | .tNot :: rest =>
        match parseLevel fuel 2 rest with
        | some (v, rest2) => some (!v, rest2)
        | none => none
      | .tTrue :: rest => some (true, rest)
      | .tFalse :: rest => some (false, rest)
      | .tLParen :: rest =>
        match parseLevel fuel 0 rest with
        | some (v, .tRParen :: rest2) => some (v, rest2)
        | _ => none
      | _ => none

/-- Tail of an or-chain. -/
def parseOrTail (fuel : Nat) (acc : Bool) (ts : List PyTok) :
    Option (Bool × List PyTok) :=
  match fuel with
  | 0 => none
  | fuel + 1 =>
    match ts with
    | .tOr :: rest =>
      match parseLevel fuel 1 rest with
      | none => none
      | some (v, rest2) => parseOrTail fuel (acc || v) rest2
    | _ => some (acc, ts)

/-- Tail of an and-chain. -/
def parseAndTail (fuel : Nat) (acc : Bool) (ts : List PyTok) :
    Option (Bool × List PyTok) :=
  match fuel with
  | 0 => none
  | fuel + 1 =>
    match ts with
    | .tAnd :: rest =>
      match parseLevel fuel 2 rest with
      | none => none
      | some (v, rest2) => parseAndTail fuel (acc && v) rest2
    | _ => some (acc, ts)

end

/-- Model of bool(eval(expr)) on the Boolean fragment: none models an
exception escaping from eval. -/
def pyEval (s : String) : Option Bool :=
  match pyTokenize s.data.length s.data with
  | none => none
  | some ts =>
    match parseLevel (2 * ts.length + 4) 0 ts with
    | some (v, []) => some v
    | _ => none

/-! Gene logic rule evaluation, from evaluate_logic_rule in
agent/nodes/dynamics.py and agent/nodes/perturb.py.  Both substitute
gene names (longest first, ties in dictionary order, matching the
stable Python sort), rewrite the operators, and hand the result to
eval; an exception from eval is caught and yields False. -/

/-- Python boolean literal text for a state value. -/
def boolLit (b : Bool) : String :=
  if b then "True" else "False"

/-- Stable insertion for the descending-length sort of gene names. -/
def insertLenDesc (x : String) : List String → List String
  | [] => [x]
  | y :: ys => if y.length ≤ x.length then x :: y :: ys else y :: insertLenDesc x ys

/-- Model of sorted(state.keys(), key=len, reverse=True): a stable sort
by descending length. -/
def sortLenDesc : List String → List String
  | [] => []
  | x :: xs => insertLenDesc x (sortLenDesc xs)

/-- Gene-name substitution loop of evaluate_logic_rule. -/
def substGenes (rule : String) (st : List (String × Bool)) : String :=
  (sortLenDesc (st.map Prod.fst)).foldl
    (fun expr g =>
      if occursIn g.data expr.data then
        pyReplace expr g (boolLit ((st.lookup g).getD false))
      else expr)
    rule

/-- Operator rewriting of evaluate_logic_rule. -/
def substOps (e : String) : String :=
  pyReplace (pyReplace (pyReplace e "&" " and ") "|" " or ") "!" " not "

/-- The expression string handed to eval by evaluate_logic_rule. -/
def substitutedExpr (rule : String) (st : List (String × Bool)) : String :=
  substOps (substGenes rule st)

/-- Model of evaluate_logic_rule in agent/nodes/dynamics.py: empty rule
is False, and an eval failure is caught and yields False. -/
def evaluate_logic_rule_dyn (rule : String) (st : List (String × Bool)) : Bool :=
  if rule = "" then false
  else
    match pyEval (substitutedExpr rule st) with
    | some b => b
    | none => false

/-- Model of evaluate_logic_rule in agent/nodes/perturb.py: as the
dynamics version, but with special cases for rules that strip to the
literals True and False. -/
def evaluate_logic_rule_perturb (rule : String) (st : List (String × Bool)) : Bool :=
  if rule = "" then false
  else if pyStrip rule = "True" then true
  else if pyStrip rule = "False" then false
  else
    match pyEval (substitutedExpr rule st) with
    | some b => b
    | none => false

/-! The network model and the baseline simulation of
agent/nodes/perturb.py.  A state is an association list in node order,
modelling the Python dict whose keys are exactly the node names. -/

/-- One node of the network model dict: its type tag and logic rule. -/
structure PNode where
  ptype : String
  logic : String
deriving DecidableEq

/-- The model dict handed to the perturbation analyzer: nodes and named
input conditions, in insertion order. -/
structure NetworkModel where
  nodes : List (String × PNode)
  input_conditions : List (String × List (String × Bool))
deriving DecidableEq

/-- A simulation state: node name to Boolean value, in node order. -/
abbrev PState := List (String × Bool)

/-- The first input condition, or the empty dict when none exists. -/
def firstCondition (m : NetworkModel) : List (String × Bool) :=
  match m.input_conditions with
  | [] => []
  | (_, cond) :: _ => cond

/-- Baseline initialization in simulate_baseline: input nodes take the
supplied condition value (default False), every other node starts at
False. -/
def initBaseline (m : NetworkModel) : PState :=
  m.nodes.map (fun p =>
    (p.1, if p.2.ptype = "input" then ((firstCondition m).lookup p.1).getD false else false))

/-- Python dict assignment: replace the first binding of the key, or
append a new binding at the end. -/
def setVal : PState → String → Bool → PState
  | [], k, v => [(k, v)]
  | (k0, v0) :: rest, k, v =>
    if k0 = k then (k, v) :: rest else (k0, v0) :: setVal rest k v

/-- One synchronous update step of simulate_baseline: every logic node
is re-evaluated against the unmodified current state. -/
def stepBaseline (m : NetworkModel) (cur : PState) : PState :=
  m.nodes.foldl
    (fun next p =>
      if p.2.ptype = "logic" then
        setVal next p.1 (evaluate_logic_rule_perturb p.2.logic cur)
      else next)
    cur

/-- The stepping loop of simulate_baseline: up to the given number of
steps, stopping early at a fixed point. -/
def simLoop (m : NetworkModel) : Nat → PState → PState
  | 0, cur => cur
  | fuel + 1, cur =>
    let next := stepBaseline m cur
    if next = cur then cur else simLoop m fuel next

/-- Default step count of simulate_baseline. -/
def baselineSteps : Nat := 50

/-- Model of simulate_baseline in agent/nodes/perturb.py. -/
def simulate_baseline (m : NetworkModel) (steps : Nat) : PState :=
  simLoop m steps (initBaseline m)

/-- Forcing the logic rule of an existing node to a constant literal,
as test_knockout and test_overexpression do on a deep copy. -/
def forceLogic (m : NetworkModel) (target : String) (lit : String) : NetworkModel :=
  if (m.nodes.lookup target).isSome then
    { m with nodes := m.nodes.map (fun p =>
        if p.1 = target then (p.1, { p.2 with logic := lit }) else p) }
  else m

/-- The change test shared by calculate_impact and find_affected_nodes:
the node is present in the perturbed state with a value differing from
its baseline value.  Keys of a simulation state are unique (they come
from the node dict), so the pair value is the dict value. -/
def changedTest (perturbed : PState) (p : String × Bool) : Bool :=
  match perturbed.lookup p.1 with
  | some w => decide (p.2 ≠ w)
  | none => false

/-- Model of find_affected_nodes in agent/nodes/perturb.py. -/
def find_affected_nodes (baseline perturbed : PState) : List String :=
  (baseline.filter (changedTest perturbed)).map Prod.fst

/-- Model of calculate_impact in agent/nodes/perturb.py: the fraction of
baseline nodes whose value differs in the perturbed state; the counting
loop uses the same change test as find_affected_nodes. -/
def calculate_impact (baseline perturbed : PState) : ℚ :=
  if baseline = [] ∨ perturbed = [] then 0
  else ((baseline.filter (changedTest perturbed)).length : ℚ) / (baseline.length : ℚ)

/-- Result record of one perturbation experiment. -/
structure PerturbationOutcome where
  node : String
  kind : String
  impact_score : ℚ
  affected_nodes : List String
  final_states : PState
deriving DecidableEq

/-- Model of test_knockout in agent/nodes/perturb.py. -/
def test_knockout (m : NetworkModel) (target : String) (baseline : PState) :
    PerturbationOutcome :=
  let ko := simulate_baseline (forceLogic m target "False") baselineSteps
  { node := target, kind := "knockout",
    impact_score := calculate_impact baseline ko,
    affected_nodes := find_affected_nodes baseline ko,
    final_states := ko }

/-- Model of test_overexpression in agent/nodes/perturb.py. -/
def test_overexpression (m : NetworkModel) (target : String) (baseline : PState) :
    PerturbationOutcome :=
  let oe := simulate_baseline (forceLogic m target "True") baselineSteps
  { node := target, kind := "overexpression",
    impact_score := calculate_impact baseline oe,
    affected_nodes := find_affected_nodes baseline oe,
    final_states := oe }

/-- Names of the logic nodes, in node order. -/
def logicNodeNames (m : NetworkModel) : List String :=
  (m.nodes.filter (fun p => p.2.ptype = "logic")).map Prod.fst

/-- Result record of analyze_perturbations. -/
structure PerturbationAnalysis where
  baseline_states : PState
  knockouts : List PerturbationOutcome
  overexpressions : List PerturbationOutcome
  robust_nodes : List String
  sensitive_nodes : List String
  total_nodes_tested : Nat

/-- The robustness test of analyze_perturbations: both impact scores
below 0.1. -/
def robustTest (ko oe : PerturbationOutcome) : Prop :=
  ko.impact_score < 1/10 ∧ oe.impact_score < 1/10

instance (ko oe : PerturbationOutcome) : Decidable (robustTest ko oe) := by
  unfold robustTest; infer_instance

/-- The sensitivity test of analyze_perturbations: either impact score
above 0.5, reached only when the robustness test failed (elif). -/
def sensitiveTest (ko oe : PerturbationOutcome) : Prop :=
  ko.impact_score > 1/2 ∨ oe.impact_score > 1/2

instance (ko oe : PerturbationOutcome) : Decidable (sensitiveTest ko oe) := by
  unfold sensitiveTest; infer_instance

/-- Loop body of analyze_perturbations: test one logic node and append
it to the robust or sensitive list according to its impact scores. -/
def perturbClassifyStep (m : NetworkModel) (baseline : PState)
    (acc : List PerturbationOutcome × List PerturbationOutcome ×
      List String × List String) (name : String) :
    List PerturbationOutcome × List PerturbationOutcome ×
      List String × List String :=
  let ko := test_knockout m name baseline
  let oe := test_overexpression m name baseline
  let kos := acc.1 ++ [ko]
  let oes := acc.2.1 ++ [oe]
  let rob :=
    if robustTest ko oe then acc.2.2.1 ++ [name] else acc.2.2.1
  let sens :=
    if ¬ robustTest ko oe ∧ sensitiveTest ko oe then acc.2.2.2 ++ [name]
    else acc.2.2.2
  (kos, oes, rob, sens)

/-- Model of analyze_perturbations in agent/nodes/perturb.py: run both
perturbations for every logic node and classify it as robust, as
sensitive, or as neither. -/
def analyze_perturbations (m : NetworkModel) : PerturbationAnalysis :=
  let baseline := simulate_baseline m baselineSteps
  let names := logicNodeNames m
  let final := names.foldl (perturbClassifyStep m baseline) ([], [], [], [])
  { baseline_states := baseline, knockouts := final.1,
    overexpressions := final.2.1, robust_nodes := final.2.2.1,
    sensitive_nodes := final.2.2.2, total_nodes_tested := names.length }

/-! The tool registry of agent/tool_registry.py.  The registry dict is
modelled as a list of tool definitions in insertion order with unique
names; tool functions are modelled for the executor of
agent/dynamic_controller.py as functions from the analysis state to an
execution result. -/

/-- Outcome of calling a tool function on the state: a dict of result
keys, a non-dict return value (ignored by the executor), or a raised
exception. -/
inductive ExecResult (α : Type) where
  | okDict (upd : List (String × α)) : ExecResult α
  | nonDict : ExecResult α
  | exn (msg : String) : ExecResult α

/-- Model of the ToolDefinition dataclass, together with the tool
function used by execute_pipeline_step. -/
structure PyToolDefinition (α : Type) where
  name : String
  description : String
  run : List (String × α) → ExecResult α
  input_requirements : List String
  output_provides : List String
  category : String
  priority : Int
  enabled : Bool

/-- Model of the ToolRegistry: the tools dict in insertion order. -/
structure ToolRegistry (α : Type) where
  tools : List (PyToolDefinition α)

/-- Model of ToolRegistry.get_tool: first tool of the given name. -/
def getTool (reg : ToolRegistry α) (name : String) :
    Option (PyToolDefinition α) :=
  reg.tools.find? (fun t => t.name = name)

/-- Stable insertion for the descending-priority sort. -/
def insertPrioDesc (x : PyToolDefinition α) :
    List (PyToolDefinition α) → List (PyToolDefinition α)
  | [] => [x]
  | y :: ys =>
    if y.priority ≤ x.priority then x :: y :: ys else y :: insertPrioDesc x ys

/-- Model of sorted(tools, key=priority, reverse=True): a stable sort by
descending priority, so that equal priorities keep insertion order. -/
def sortPrioDesc : List (PyToolDefinition α) → List (PyToolDefinition α)
  | [] => []
  | x :: xs => insertPrioDesc x (sortPrioDesc xs)

/-- Model of ToolRegistry.find_tools_for_requirements: enabled tools
providing at least one requested key, sorted by descending priority. -/
def find_tools_for_requirements (reg : ToolRegistry α)
    (requirements : List String) : List (PyToolDefinition α) :=
  sortPrioDesc (reg.tools.filter
    (fun t => t.enabled && requirements.any (fun r => t.output_provides.contains r)))

/-- Model of ToolRegistry.can_execute_tool: the named tool exists, is
enabled, and all its input requirements are available. -/
def can_execute_tool (reg : ToolRegistry α) (name : String)
    (available : List String) : Bool :=
  match getTool reg name with
  | none => false
  | some t => t.enabled && t.input_requirements.all (fun r => available.contains r)

/-- One pass of the get_execution_plan loop: walk the snapshot of the
remaining goals; for each goal take the first provider that can execute
with the accumulating data; after handling a goal, stop the pass as soon
as that goal is no longer among the remaining goals.  Returns the
updated plan, data, remaining goals and progress flag. -/
def planPass (reg : ToolRegistry α) :
    List String → List String → List String → List String → Bool →
    (List String × List String × List String × Bool)
  | [], plan, data, remaining, progress => (plan, data, remaining, progress)
  | g :: gs, plan, data, remaining, progress =>
    match (find_tools_for_requirements reg [g]).find?
        (fun t => can_execute_tool reg t.name data) with
    | some t =>
      let plan2 := plan ++ [t.name]
      let data2 := data ++ t.output_provides
      let remaining2 := remaining.erase g
      if g ∈ remaining2 then planPass reg gs plan2 data2 remaining2 true
      else (plan2, data2, remaining2, true)
    | none =>
      if g ∈ remaining then planPass reg gs plan data remaining progress
      else (plan, data, remaining, progress)

/-- The bounded while loop of get_execution_plan: up to 20 passes,
stopping when the goals are exhausted or a pass makes no progress. -/
def planLoop (reg : ToolRegistry α) :
    Nat → List String → List String → List String → List String
  | 0, plan, _, _ => plan
  | fuel + 1, plan, data, remaining =>
    if remaining = [] then plan
    else
      let r := planPass reg remaining plan data remaining false
      if r.2.2.2 then planLoop reg fuel r.1 r.2.1 r.2.2.1
      else r.1

/-- The pass bound of get_execution_plan. -/
def planPassBound : Nat := 20

/-- Model of ToolRegistry.get_execution_plan. -/
def get_execution_plan (reg : ToolRegistry α) (goals : List String)
    (available_data : List String) : List String :=
  planLoop reg planPassBound [] available_data goals

/-! The dynamic controller of agent/dynamic_controller.py: quality
assessment, the continue/stop decision, and the pipeline executor. -/

/-- The validation_results entry read by assess_current_quality. -/
structure ValidationResults where
  biological_plausibility : ℚ
  issues : List String
deriving DecidableEq

/-- The dynamics_results entry read by assess_current_quality. -/
structure DynamicsResults where
  unstable_nodes : List String
deriving DecidableEq

/-- The fragment of the shared analysis state read by the quality
assessment: the three optional entries it inspects (model_data is
reduced to its node-name list, whose length is all that is read). -/
structure AssessState where
  validation_results : Option ValidationResults
  dynamics_results : Option DynamicsResults
  model_data_nodes : Option (List String)

/-- The quality assessment record. -/
structure QualityAssessment where
  overall_score : ℚ
  issues : List String
  recommendations : List String
  needs_iteration : Bool

/-- The fixed quality thresholds of the DynamicController constructor. -/
def plausibilityMin : ℚ := 7/10

/-- Maximum tolerated issue count before iteration is requested. -/
def maxIssues : Nat := 2

/-- Maximum tolerated unstable-node fraction before iteration is
requested. -/
def maxUnstable : ℚ := 3/10

/-- Model of DynamicController.assess_current_quality.  The numeric
interpolations of the recommendation strings are elided. -/
def assess_current_quality (st : AssessState) : QualityAssessment :=
  let qa0 : QualityAssessment :=
    { overall_score := 0, issues := [], recommendations := [],
      needs_iteration := false }
  let qa1 :=
    match st.validation_results with
    | none => qa0
    | some v =>
      let qaA := { qa0 with
        overall_score := v.biological_plausibility,
        issues := v.issues }
      let qaB :=
        if v.biological_plausibility < plausibilityMin then
          { qaA with
            needs_iteration := true,
            recommendations := qaA.recommendations ++ ["Low biological plausibility"] }
        else qaA
      if v.issues.length > maxIssues then
        { qaB with
          needs_iteration := true,
          recommendations := qaB.recommendations ++ ["Too many issues found"] }
      else qaB
  match st.dynamics_results with
  | none => qa1
  | some d =>
    let totalNodes := (st.model_data_nodes.getD []).length
    if totalNodes > 0 then
      if (d.unstable_nodes.length : ℚ) / (totalNodes : ℚ) > maxUnstable then
        { qa1 with
          needs_iteration := true,
          recommendations := qa1.recommendations ++ ["High instability ratio"] }
      else qa1
    else qa1

/-- The mutable counters of the DynamicController. -/
structure ControllerState where
  max_iterations : Nat
  current_iteration : Nat

/-- The decision dict returned by should_continue_iteration. -/
structure ControllerDecision where
  action : String
  reason : String
  quality_assessment : QualityAssessment
  iteration : Nat
  next_pipeline : Option (List String)

/-- Model of DynamicController.should_continue_iteration.  The pipeline
adaptation is abstracted by the adapt argument standing for
adapt_pipeline, which the decision logic only invokes.  Returns the
updated controller and the decision. -/
def should_continue_iteration (c : ControllerState)
    (adapt : AssessState → QualityAssessment → List String)
    (st : AssessState) : ControllerState × ControllerDecision :=
  let c2 : ControllerState :=
    { c with current_iteration := c.current_iteration + 1 }
  let qa := assess_current_quality st
  let d0 : ControllerDecision :=
    { action := "STOP", reason := "acceptable_quality",
      quality_assessment := qa, iteration := c2.current_iteration,
      next_pipeline := none }
  let d :=
    if c2.current_iteration ≥ c2.max_iterations then
      { d0 with
        action := "STOP",
        reason := "max_iterations_reached_" ++ toString c2.max_iterations }
    else if qa.needs_iteration then
      { d0 with
        action := "CONTINUE",
        reason := "quality_issues_detected",
        next_pipeline := some (adapt st qa) }
    else d0
  (c2, d)

/-- Python dict assignment for the shared analysis state: replace the
first binding of the key, or append a new binding at the end. -/
def dictSet : List (String × α) → String → α → List (String × α)
  | [], k, v => [(k, v)]
  | (k0, v0) :: rest, k, v =>
    if k0 = k then (k, v) :: rest else (k0, v0) :: dictSet rest k v

/-- Model of DynamicController.execute_pipeline_step: a missing tool,
unmet requirements, a non-dict result, or an exception all leave the
state as it is; a dict result is merged into the state. -/
def execute_pipeline_step (reg : ToolRegistry α) (step : String)
    (st : List (String × α)) : List (String × α) :=
  match getTool reg step with
  | none => st
  | some t =>
    if can_execute_tool reg step (st.map Prod.fst) then
      match t.run st with
      | .okDict upd => upd.foldl (fun s kv => dictSet s kv.1 kv.2) st
      | .nonDict => st
      | .exn _ => st
    else st

/-- The pipeline loop of pipeline_executor_node in
agent/dynamic_graph.py: execute every step of the current pipeline in
order, threading the state. -/
def run_pipeline (reg : ToolRegistry α) (pipeline : List String)
    (st : List (String × α)) : List (String × α) :=
  pipeline.foldl (fun s step => execute_pipeline_step reg step s) st

/-! Concrete fixtures used by counterexamples and witnesses. -/

/-- A metadata-only tool whose function returns nothing of interest. -/
def mkTool (n : String) (reqs provs : List String) (pri : Int) :
    PyToolDefinition Unit :=
  { name := n, description := "", run := fun _ => .nonDict,
    input_requirements := reqs, output_provides := provs,
    category := "analyzer", priority := pri, enabled := true }

/-- Registry with a single no-input tool providing the key k. -/
def regSingleProvider : ToolRegistry Unit :=
  { tools := [mkTool "load" [] ["k"] 50] }

/-- Registry with two mutually dependent tools: toolA needs the output
of toolB and vice versa. -/
def regCyclic : ToolRegistry Unit :=
  { tools := [mkTool "toolA" ["b"] ["a"] 50, mkTool "toolB" ["a"] ["b"] 50] }

/-- Trivial pipeline adaptation used in concrete controller runs. -/
def adaptZero : AssessState → QualityAssessment → List String :=
  fun _ _ => []

/-- An analysis state carrying none of the assessed entries. -/
def emptyAssessState : AssessState :=
  { validation_results := none, dynamics_results := none,
    model_data_nodes := none }

/-- A tool whose function always raises. -/
def boomTool : PyToolDefinition Nat :=
  { name := "boom", description := "", run := fun _ => .exn "fail",
    input_requirements := ["model_data"], output_provides := ["x"],
    category := "analyzer", priority := 50, enabled := true }

/-- Registry containing only the raising tool. -/
def regBoom : ToolRegistry Nat := { tools := [boomTool] }

/-- The two-node network of the specification: input A under condition
true, and logic node B with rule A. -/
def exNet : NetworkModel :=
  { nodes := [("A", { ptype := "input", logic := "" }),
              ("B", { ptype := "logic", logic := "A" })],
    input_conditions := [("cond1", [("A", true)])] }

/-- A network with one logic node whose rule is constant True; no other
node depends on it. -/
def koNet : NetworkModel :=
  { nodes := [("B", { ptype := "logic", logic := "True" })],
    input_conditions := [] }

/-- Input A under condition true feeding two logic nodes B and C with
rule A; no node depends on C. -/
def threeNet : NetworkModel :=
  { nodes := [("A", { ptype := "input", logic := "" }),
              ("B", { ptype := "logic", logic := "A" }),
              ("C", { ptype := "logic", logic := "A" })],
    input_conditions := [("cond1", [("A", true)])] }

/-- The restriction of a simulation state to the nodes other than t,
used to compare perturbed and unperturbed runs away from the perturbed
node. -/
def projOff (t : String) (s : PState) : PState :=
  s.filter (fun p => p.1 != t)

/-! Lemmas about the execution planner. -/

/-- The planning loop with no remaining goals returns the plan. -/
theorem planLoop_nil {α : Type} (reg : ToolRegistry α)
    (fuel : Nat) (plan data : List String) :
    planLoop reg fuel plan data [] = plan := by
  cases fuel <;> rfl

/-- Unfolding step for the planning loop on a non-empty goal list. -/
theorem planLoop_succ {α : Type} (reg : ToolRegistry α)
    (fuel : Nat) (plan data rem : List String) (h : rem ≠ []) :
    planLoop reg (fuel + 1) plan data rem =
      (if (planPass reg rem plan data rem false).2.2.2 then
        planLoop reg fuel (planPass reg rem plan data rem false).1
          (planPass reg rem plan data rem false).2.1
          (planPass reg rem plan data rem false).2.2.1
      else (planPass reg rem plan data rem false).1) := by
  simp [planLoop, h]

/-- C1, amended single-goal characterization: with a single goal the
planner schedules the first executable provider of that goal, whether or
not the goal is already among the available keys. -/
theorem c1_single_goal_plan {α : Type} (reg : ToolRegistry α)
    (g : String) (avail : List String) :
    get_execution_plan reg [g] avail =
      ((find_tools_for_requirements reg [g]).find?
        (fun t => can_execute_tool reg t.name avail)).elim []
        (fun t => [t.name]) := by
  show planLoop reg (19 + 1) [] avail [g] = _
  rw [planLoop_succ reg 19 [] avail [g] (by simp)]
  cases h : (find_tools_for_requirements reg [g]).find?
      (fun t => can_execute_tool reg t.name avail) with
  | none =>
    have hpass : planPass reg [g] [] avail [g] false = ([], avail, [g], false) := by
      simp [planPass, h]
    rw [hpass]
    simp
  | some t =>
    have hpass : planPass reg [g] [] avail [g] false =
        ([t.name], avail ++ t.output_provides, [], true) := by
      simp [planPass, h, List.erase_cons_head]
    rw [hpass]
    simp [planLoop_nil]

/-- C1 counterexample: the single tool load provides only the key k,
and k is already among the available keys, yet the planner schedules
load anyway: the plan is not free of tools whose only purpose is an
already-available goal. -/
theorem c1_counterexample :
    get_execution_plan regSingleProvider ["k"] ["k"] = ["load"] ∧
      (mkTool "load" [] ["k"] 50).output_provides = ["k"] := by
  constructor <;> decide

/-! Size bound for the planner: every scheduled tool removes one goal,
so the plan never exceeds the goal count.  The snapshot walked by a pass
is counted inside the remaining goals. -/

/-- Count invariant through one planning pass: the sum of plan length
and remaining-goal count never grows, provided the unvisited snapshot is
counted inside the remaining goals. -/
theorem planPass_length {α : Type} (reg : ToolRegistry α) :
    ∀ (gs plan data remaining : List String) (progress : Bool),
      (∀ a, gs.count a ≤ remaining.count a) →
      (planPass reg gs plan data remaining progress).1.length +
          (planPass reg gs plan data remaining progress).2.2.1.length ≤
        plan.length + remaining.length := by
  intro gs
  induction gs with
  | nil => intro plan data remaining progress _; simp [planPass]
  | cons g gs ih =>
    intro plan data remaining progress hcount
    have hcons : ∀ a, gs.count a ≤ remaining.count a := by
      intro a
      have h1 := hcount a
      have h2 : gs.count a ≤ (g :: gs).count a := by
        rw [List.count_cons]; omega
      omega
    have hg : g ∈ remaining := by
      have h1 := hcount g
      have h2 : 0 < (g :: gs).count g := by
        rw [List.count_cons_self]; omega
      exact List.count_pos_iff.mp (by omega)
    have herase : (remaining.erase g).length + 1 = remaining.length := by
      have h3 := List.length_erase_of_mem hg
      have h4 : 0 < remaining.length := List.length_pos.mpr (by
        intro hnil; rw [hnil] at hg; exact (List.not_mem_nil g) hg)
      omega
    simp only [planPass]
    cases hf : (find_tools_for_requirements reg [g]).find?
        (fun t => can_execute_tool reg t.name data) with
    | some t =>
      simp only []
      by_cases hmem : g ∈ remaining.erase g
      · rw [if_pos hmem]
        have hcount2 : ∀ a, gs.count a ≤ (remaining.erase g).count a := by
          intro a
          have h1 := hcount a
          rw [List.count_erase]
          rw [List.count_cons] at h1
          by_cases hag : g = a
          · subst hag; simp at h1 ⊢; omega
          · have hb : (g == a) = false := beq_eq_false_iff_ne.mpr hag
            rw [hb]
            simp
            omega
        have hrec := ih (plan ++ [t.name]) (data ++ t.output_provides)
          (remaining.erase g) true hcount2
        simp only [List.length_append, List.length_cons, List.length_nil] at hrec ⊢
        omega
      · rw [if_neg hmem]
        simp only [List.length_append, List.length_cons, List.length_nil]
        omega
    | none =>
      simp only []
      rw [if_pos hg]
      exact ih plan data remaining progress hcons

/-- Plan-size invariant of the bounded planning loop. -/
theorem planLoop_length {α : Type} (reg : ToolRegistry α) :
    ∀ (fuel : Nat) (plan data remaining : List String),
      (planLoop reg fuel plan data remaining).length ≤
        plan.length + remaining.length := by
  intro fuel
  induction fuel with
  | zero => intro plan data remaining; simp [planLoop]
  | succ n ih =>
    intro plan data remaining
    simp only [planLoop]
    by_cases hrem : remaining = []
    · simp [hrem]
    · simp only [hrem, if_false]
      have hpass := planPass_length reg remaining plan data remaining false
        (fun a => le_refl _)
      by_cases hprog :
          (planPass reg remaining plan data remaining false).2.2.2 = true
      · simp only [hprog, if_true]
        calc (planLoop reg n (planPass reg remaining plan data remaining false).1
                (planPass reg remaining plan data remaining false).2.1
                (planPass reg remaining plan data remaining false).2.2.1).length
            ≤ _ := ih _ _ _
          _ ≤ plan.length + remaining.length := hpass
      · rw [Bool.not_eq_true] at hprog
        simp only [hprog, Bool.false_eq_true, if_false]
        omega

/-- C2: the planner always terminates within the pass bound with a plan
no longer than the goal list (it is a total function of its fuel), and
for the mutually unsatisfiable cyclic registry, where toolA requires the
output of toolB and vice versa, the first pass selects no tool and
planning ends non-fatally with the empty partial plan. -/
theorem c2_termination_partial_plan :
    (∀ (α : Type) (reg : ToolRegistry α) (goals avail : List String),
        (get_execution_plan reg goals avail).length ≤ goals.length) ∧
      get_execution_plan regCyclic ["a", "b"] [] = [] := by
  constructor
  · intro α reg goals avail
    have h := planLoop_length reg planPassBound [] avail goals
    simpa using h
  · decide

/-! Lemmas about the provider lookup and its stable descending sort. -/

/-- Membership in the stable priority insertion. -/
theorem mem_insertPrioDesc {α : Type} (x a : PyToolDefinition α) :
    ∀ l : List (PyToolDefinition α),
      a ∈ insertPrioDesc x l ↔ a = x ∨ a ∈ l := by
  intro l
  induction l with
  | nil => simp [insertPrioDesc]
  | cons y ys ih =>
    simp only [insertPrioDesc]
    by_cases h : y.priority ≤ x.priority
    · rw [if_pos h]; simp
    · rw [if_neg h]
      simp only [List.mem_cons, ih]
      tauto

/-- Membership in the stable descending-priority sort. -/
theorem mem_sortPrioDesc {α : Type} (a : PyToolDefinition α) :
    ∀ l : List (PyToolDefinition α), a ∈ sortPrioDesc l ↔ a ∈ l := by
  intro l
  induction l with
  | nil => simp [sortPrioDesc]
  | cons y ys ih =>
    simp only [sortPrioDesc, mem_insertPrioDesc, ih, List.mem_cons]

/-- Stable priority insertion preserves descending order. -/
theorem pairwise_insertPrioDesc {α : Type} (x : PyToolDefinition α) :
    ∀ l : List (PyToolDefinition α),
      l.Pairwise (fun a b => b.priority ≤ a.priority) →
      (insertPrioDesc x l).Pairwise (fun a b => b.priority ≤ a.priority) := by
  intro l
  induction l with
  | nil => intro _; simp [insertPrioDesc]
  | cons y ys ih =>
    intro h
    rw [List.pairwise_cons] at h
    simp only [insertPrioDesc]
    by_cases hxy : y.priority ≤ x.priority
    · rw [if_pos hxy]
      rw [List.pairwise_cons]
      constructor
      · intro z hz
        rcases List.mem_cons.mp hz with hz | hz
        · rw [hz]; exact hxy
        · exact le_trans (h.1 z hz) hxy
      · rw [List.pairwise_cons]
        exact h
    · rw [if_neg hxy]
      rw [List.pairwise_cons]
      constructor
      · intro z hz
        rcases (mem_insertPrioDesc x z ys).mp hz with hz | hz
        · rw [hz]; exact le_of_not_le hxy
        · exact h.1 z hz
      · exact ih h.2

/-- The descending-priority sort is sorted. -/
theorem pairwise_sortPrioDesc {α : Type} :
    ∀ l : List (PyToolDefinition α),
      (sortPrioDesc l).Pairwise (fun a b => b.priority ≤ a.priority) := by
  intro l
  induction l with
  | nil => simp [sortPrioDesc]
  | cons y ys ih => exact pairwise_insertPrioDesc y _ ih

/-- Stability of the priority insertion: restricted to any one priority
value, insertion prepends the new element exactly when it has that
priority. -/
theorem filter_insertPrioDesc {α : Type} (p : Int) (x : PyToolDefinition α) :
    ∀ l : List (PyToolDefinition α),
      (insertPrioDesc x l).filter (fun t => t.priority == p) =
        if x.priority == p then
          x :: l.filter (fun t => t.priority == p)
        else l.filter (fun t => t.priority == p) := by
  intro l
  induction l with
  | nil =>
    simp only [insertPrioDesc, List.filter]
    by_cases h : x.priority = p
    · simp [h]
    · have hb : (x.priority == p) = false := by simp [h]
      simp [hb]
  | cons y ys ih =>
    simp only [insertPrioDesc]
    by_cases hxy : y.priority ≤ x.priority
    · rw [if_pos hxy]
      by_cases hx : x.priority = p
      · simp [List.filter, hx]
      · have hxb : (x.priority == p) = false := by simp [hx]
        simp [List.filter, hxb]
    · rw [if_neg hxy]
      by_cases hx : x.priority = p
      · have hyp : (y.priority == p) = false := by
          have : ¬ y.priority = p := by
            intro hq
            exact hxy (by rw [hq, ← hx])
          simp [this]
        simp only [List.filter, hyp, ih]
      · have hxb : (x.priority == p) = false := by simp [hx]
        simp only [List.filter, ih, hxb]
        cases hyb : (y.priority == p) <;> simp

/-- Stability of the descending-priority sort: restricted to any one
priority value, the sort preserves the original order. -/
theorem filter_sortPrioDesc {α : Type} (p : Int) :
    ∀ l : List (PyToolDefinition α),
      (sortPrioDesc l).filter (fun t => t.priority == p) =
        l.filter (fun t => t.priority == p) := by
  intro l
  induction l with
  | nil => rfl
  | cons y ys ih =>
    simp only [sortPrioDesc, filter_insertPrioDesc, ih]
    by_cases hy : y.priority = p
    · have hyb : (y.priority == p) = true := by simp [hy]
      simp [hyb, List.filter]
    · have hyb : (y.priority == p) = false := by simp [hy]
      simp [hyb, List.filter]

/-- C9, amended: the provider lookup returns exactly the enabled tools
providing the key, sorted by priority descending; equal priorities keep
registration (insertion) order, so the order is deterministic given the
registration sequence but is not the name-ascending order. -/
theorem c9_find_providers {α : Type} (reg : ToolRegistry α) (k : String) :
    (∀ t, t ∈ find_tools_for_requirements reg [k] ↔
        t ∈ reg.tools ∧ t.enabled = true ∧ k ∈ t.output_provides) ∧
      (find_tools_for_requirements reg [k]).Pairwise
        (fun a b => b.priority ≤ a.priority) ∧
      (∀ p : Int, (find_tools_for_requirements reg [k]).filter
            (fun t => t.priority == p) =
          (reg.tools.filter (fun t =>
            t.enabled && t.output_provides.contains k)).filter
            (fun t => t.priority == p)) := by
  refine ⟨?_, ?_, ?_⟩
  · intro t
    unfold find_tools_for_requirements
    rw [mem_sortPrioDesc, List.mem_filter]
    simp [List.elem_iff]
  · exact pairwise_sortPrioDesc _
  · intro p
    unfold find_tools_for_requirements
    rw [filter_sortPrioDesc]
    congr 1
    apply List.filter_congr
    intro t _
    simp

/-- C9 counterexample: two enabled tools of equal priority both provide
the key k; registered as zebra then alpha, the provider list keeps that
registration order instead of the name-ascending order alpha, zebra. -/
theorem c9_counterexample :
    (find_tools_for_requirements
        ({ tools := [mkTool "zebra" [] ["k"] 50, mkTool "alpha" [] ["k"] 50] }
          : ToolRegistry Unit) ["k"]).map
      (fun t => t.name) = ["zebra", "alpha"] ∧
      (["zebra", "alpha"] : List String) ≠ ["alpha", "zebra"] := by
  constructor <;> decide

/-! The controller decision and quality assessment. -/

/-- C3, amended: the decision of should_continue_iteration follows the
priority order of the claim, except that the stop reason at the
iteration ceiling embeds the configured limit: it is the string
max_iterations_reached_ followed by max_iterations, not the bare string
max_iterations_reached.  The iteration counter increments exactly once
per assessment, reaching the ceiling takes precedence over every quality
signal, an acceptable quality stops with reason acceptable_quality, and
otherwise the controller continues with an adapted pipeline. -/
theorem c3_decision_priority (c : ControllerState)
    (adapt : AssessState → QualityAssessment → List String)
    (st : AssessState) :
    ((should_continue_iteration c adapt st).1.current_iteration =
        c.current_iteration + 1) ∧
      (c.current_iteration + 1 ≥ c.max_iterations →
        (should_continue_iteration c adapt st).2.action = "STOP" ∧
          (should_continue_iteration c adapt st).2.reason =
            "max_iterations_reached_" ++ toString c.max_iterations) ∧
      (c.current_iteration + 1 < c.max_iterations →
        (assess_current_quality st).needs_iteration = false →
        (should_continue_iteration c adapt st).2.action = "STOP" ∧
          (should_continue_iteration c adapt st).2.reason = "acceptable_quality" ∧
          (should_continue_iteration c adapt st).2.next_pipeline = none) ∧
      (c.current_iteration + 1 < c.max_iterations →
        (assess_current_quality st).needs_iteration = true →
        (should_continue_iteration c adapt st).2.action = "CONTINUE" ∧
          (should_continue_iteration c adapt st).2.next_pipeline =
            some (adapt st (assess_current_quality st))) ∧
      (c.max_iterations = 1 →
        (should_continue_iteration c adapt st).2.action = "STOP" ∧
          (should_continue_iteration c adapt st).2.reason =
            "max_iterations_reached_1") := by
  refine ⟨?_, ?_, ?_, ?_, ?_⟩
  · simp [should_continue_iteration]
  · intro h
    simp only [should_continue_iteration]
    rw [if_pos (by simpa using h)]
    simp
  · intro h1 h2
    simp only [should_continue_iteration]
    rw [if_neg (by simpa using Nat.not_le.mpr h1), if_neg (by simp [h2])]
    simp
  · intro h1 h2
    simp only [should_continue_iteration]
    rw [if_neg (by simpa using Nat.not_le.mpr h1), if_pos (by simp [h2])]
    simp
  · intro h
    simp only [should_continue_iteration]
    rw [if_pos (by simp [h])]
    simp only [h]
    exact ⟨by simp, by decide⟩

/-- C3 witness: a fresh controller with maximum one iteration stops at
once with the iteration-ceiling reason carrying the limit. -/
theorem c3_decision_witness :
    (should_continue_iteration ⟨1, 0⟩ adaptZero emptyAssessState).2.action =
        "STOP" ∧
      (should_continue_iteration ⟨1, 0⟩ adaptZero emptyAssessState).2.reason =
        "max_iterations_reached_" ++ toString (1 : Nat) :=
  (c3_decision_priority ⟨1, 0⟩ adaptZero emptyAssessState).2.1 (by decide)

/-- C3 counterexample: the first decision of a controller configured
with max_iterations one is STOP, but its reason string is
max_iterations_reached_1, not the bare max_iterations_reached stated by
the claim. -/
theorem c3_counterexample :
    (should_continue_iteration ⟨1, 0⟩ adaptZero emptyAssessState).2.action =
        "STOP" ∧
      (should_continue_iteration ⟨1, 0⟩ adaptZero emptyAssessState).2.reason =
        "max_iterations_reached_1" ∧
      "max_iterations_reached_1" ≠ "max_iterations_reached" := by
  refine ⟨by decide, by decide, by decide⟩

/-- C4: with validation results, dynamics results and a non-empty model
present, the quality assessment requests iteration exactly when the
plausibility is below 0.7, or more than two issues were found, or the
unstable-node fraction exceeds 0.3. -/
theorem c4_needs_iteration_iff (v : ValidationResults) (d : DynamicsResults)
    (ns : List String) (hns : ns ≠ []) :
    (assess_current_quality
        { validation_results := some v, dynamics_results := some d,
          model_data_nodes := some ns }).needs_iteration = true ↔
      (v.biological_plausibility < 7/10 ∨ v.issues.length > 2 ∨
        (d.unstable_nodes.length : ℚ) / (ns.length : ℚ) > 3/10) := by
  have htot : 0 < ns.length := List.length_pos.mpr hns
  unfold assess_current_quality plausibilityMin maxIssues maxUnstable
  by_cases h1 : v.biological_plausibility < 7/10 <;>
    by_cases h2 : v.issues.length > 2 <;>
    by_cases h3 : (d.unstable_nodes.length : ℚ) / (ns.length : ℚ) > 3/10 <;>
    simp [h1, h2, h3, htot]

/-- C4 witness: a state with plausibility one half, no issues, no
unstable nodes and one model node needs iteration by the plausibility
disjunct alone. -/
theorem c4_needs_iteration_witness :
    (assess_current_quality
        { validation_results := some { biological_plausibility := 1/2, issues := [] },
          dynamics_results := some { unstable_nodes := [] },
          model_data_nodes := some ["g1"] }).needs_iteration = true ↔
      ((1/2 : ℚ) < 7/10 ∨ ([] : List String).length > 2 ∨
        (([] : List String).length : ℚ) / ((["g1"] : List String).length : ℚ) > 3/10) :=
  c4_needs_iteration_iff
    { biological_plausibility := 1/2, issues := [] }
    { unstable_nodes := [] } ["g1"] (by decide)

/-- C5, amended: the executor runs the plan strictly in order and never
aborts: a missing tool, unmet requirements, a non-dict result or an
internal exception each leave the state exactly as it was, with no error
entry recorded, and only a dict result is merged into the state. -/
theorem c5_executor_semantics :
    (∀ (α : Type) (reg : ToolRegistry α) (step : String) (rest : List String)
        (st : List (String × α)),
        run_pipeline reg (step :: rest) st =
          run_pipeline reg rest (execute_pipeline_step reg step st)) ∧
      (∀ (α : Type) (reg : ToolRegistry α) (step : String)
          (st : List (String × α)),
          getTool reg step = none → execute_pipeline_step reg step st = st) ∧
      (∀ (α : Type) (reg : ToolRegistry α) (step : String)
          (st : List (String × α)),
          can_execute_tool reg step (st.map Prod.fst) = false →
          execute_pipeline_step reg step st = st) ∧
      (∀ (α : Type) (reg : ToolRegistry α) (step : String)
          (st : List (String × α)) (t : PyToolDefinition α) (msg : String),
          getTool reg step = some t → t.run st = ExecResult.exn msg →
          execute_pipeline_step reg step st = st) ∧
      (∀ (α : Type) (reg : ToolRegistry α) (step : String)
          (st : List (String × α)) (t : PyToolDefinition α),
          getTool reg step = some t → t.run st = ExecResult.nonDict →
          execute_pipeline_step reg step st = st) ∧
      (∀ (α : Type) (reg : ToolRegistry α) (step : String)
          (st : List (String × α)) (t : PyToolDefinition α)
          (upd : List (String × α)),
          getTool reg step = some t →
          can_execute_tool reg step (st.map Prod.fst) = true →
          t.run st = ExecResult.okDict upd →
          execute_pipeline_step reg step st =
            upd.foldl (fun s kv => dictSet s kv.1 kv.2) st) := by
  refine ⟨?_, ?_, ?_, ?_, ?_, ?_⟩
  · intro α reg step rest st
    rfl
  · intro α reg step st h
    simp [execute_pipeline_step, h]
  · intro α reg step st h
    unfold execute_pipeline_step
    cases hT : getTool reg step with
    | none => rfl
    | some t => simp [h]
  · intro α reg step st t msg hT hrun
    unfold execute_pipeline_step
    rw [hT]
    by_cases hc : can_execute_tool reg step (st.map Prod.fst) = true
    · simp [hc, hrun]
    · rw [Bool.not_eq_true] at hc
      simp [hc]
  · intro α reg step st t hT hrun
    unfold execute_pipeline_step
    rw [hT]
    by_cases hc : can_execute_tool reg step (st.map Prod.fst) = true
    · simp [hc, hrun]
    · rw [Bool.not_eq_true] at hc
      simp [hc]
  · intro α reg step st t upd hT hc hrun
    unfold execute_pipeline_step
    rw [hT]
    simp [hc, hrun]

/-- C5 witness: executing the raising tool on a one-entry state returns
the state untouched. -/
theorem c5_executor_witness :
    execute_pipeline_step regBoom "boom" [("model_data", 7)] =
      [("model_data", 7)] :=
  c5_executor_semantics.2.2.2.1 Nat regBoom "boom" [("model_data", 7)]
    boomTool "fail" (by rfl) (by rfl)

/-- C5 counterexample: the state after the raising tool fails is exactly
the input state, whose only key is model_data: the failure was not
recorded under any error key. -/
theorem c5_counterexample :
    execute_pipeline_step regBoom "boom" [("model_data", 0)] =
        [("model_data", 0)] ∧
      ([("model_data", 0)] : List (String × Nat)).map Prod.fst =
        ["model_data"] := by
  constructor <;> decide

/-- C10: rule evaluation is total in the embedding: the empty rule
evaluates to False in both modules, and whenever eval fails on the
substituted expression the caught exception yields False (for the
perturbation variant, unless the rule is the literal True, which
short-circuits before eval); two malformed rules evaluate concretely to
False. -/
theorem c10_eval_total :
    (∀ st, evaluate_logic_rule_dyn "" st = false ∧
        evaluate_logic_rule_perturb "" st = false) ∧
      (∀ rule st, pyEval (substitutedExpr rule st) = none →
        evaluate_logic_rule_dyn rule st = false) ∧
      (∀ rule st, pyEval (substitutedExpr rule st) = none →
        pyStrip rule ≠ "True" → evaluate_logic_rule_perturb rule st = false) ∧
      evaluate_logic_rule_dyn "((" [] = false ∧
      evaluate_logic_rule_dyn "X |" [("X", true)] = false := by
  refine ⟨?_, ?_, ?_, by decide, by decide⟩
  · intro st
    constructor <;> rfl
  · intro rule st h
    unfold evaluate_logic_rule_dyn
    by_cases hr : rule = ""
    · simp [hr]
    · simp [hr, h]
  · intro rule st h hT
    unfold evaluate_logic_rule_perturb
    by_cases hr : rule = ""
    · simp [hr]
    · by_cases hF : pyStrip rule = "False"
      · simp [hr, hT, hF]
      · simp [hr, hT, hF, h]

/-- C10 witness: a rule of unbalanced parentheses makes eval fail after
substitution, and the dynamics evaluator returns False. -/
theorem c10_eval_witness : evaluate_logic_rule_dyn "((" [] = false :=
  c10_eval_total.2.1 "((" [] (by decide)

/-! Lemmas about the baseline simulation state. -/

/-- With unique keys, a pair in an association list determines its
value. -/
theorem nodup_keys_mem_value {β : Type} :
    ∀ (l : List (String × β)) (n : String) (a b : β),
      (l.map Prod.fst).Nodup → (n, a) ∈ l → (n, b) ∈ l → a = b := by
  intro l
  induction l with
  | nil => intro n a b _ ha; exact absurd ha (List.not_mem_nil _)
  | cons p rest ih =>
    intro n a b hnodup ha hb
    rw [List.map_cons, List.nodup_cons] at hnodup
    rcases List.mem_cons.mp ha with ha | ha <;>
      rcases List.mem_cons.mp hb with hb | hb
    · rw [← ha] at hb
      exact (Prod.ext_iff.mp hb).2.symm
    · exfalso
      apply hnodup.1
      have hp1 : p.1 = n := by rw [← ha]
      rw [hp1]
      exact List.mem_map_of_mem Prod.fst hb
    · exfalso
      apply hnodup.1
      have hp1 : p.1 = n := by rw [← hb]
      rw [hp1]
      exact List.mem_map_of_mem Prod.fst ha
    · exact ih n a b hnodup.2 ha hb

/-- Lookup in a key-preserving map of an association list with unique
keys. -/
theorem lookup_map_pair (g : String × PNode → Bool) :
    ∀ (l : List (String × PNode)) (n : String) (nd : PNode),
      (l.map Prod.fst).Nodup → (n, nd) ∈ l →
      (l.map (fun p => (p.1, g p))).lookup n = some (g (n, nd)) := by
  intro l
  induction l with
  | nil => intro n nd _ h; exact absurd h (List.not_mem_nil _)
  | cons p rest ih =>
    intro n nd hnodup hmem
    rw [List.map_cons, List.nodup_cons] at hnodup
    rcases List.mem_cons.mp hmem with h | h
    · rw [← h]
      simp [List.lookup]
    · have hne : p.1 ≠ n := by
        intro he
        apply hnodup.1
        rw [he]
        exact List.mem_map_of_mem Prod.fst h
      have hne2 : (n == p.1) = false := beq_eq_false_iff_ne.mpr (Ne.symm hne)
      simp only [List.map_cons, List.lookup, hne2]
      exact ih n nd hnodup.2 h

/-- The baseline initial value of a node with unique names. -/
theorem initBaseline_lookup (m : NetworkModel) (n : String) (nd : PNode)
    (hnodup : (m.nodes.map Prod.fst).Nodup) (hmem : (n, nd) ∈ m.nodes) :
    (initBaseline m).lookup n =
      some (if nd.ptype = "input" then
        ((firstCondition m).lookup n).getD false
      else false) := by
  unfold initBaseline
  have h := lookup_map_pair
    (fun p => if p.2.ptype = "input" then
      ((firstCondition m).lookup p.1).getD false else false)
    m.nodes n nd hnodup hmem
  simpa using h

/-- Python dict assignment does not disturb other keys. -/
theorem setVal_lookup_ne (k n : String) (v : Bool) (hne : k ≠ n) :
    ∀ s : PState, (setVal s k v).lookup n = s.lookup n := by
  have hbk : (n == k) = false := beq_eq_false_iff_ne.mpr (Ne.symm hne)
  intro s
  induction s with
  | nil =>
    simp [setVal, List.lookup, hbk]
  | cons p rest ih =>
    simp only [setVal]
    by_cases h : p.1 = k
    · rw [if_pos h]
      have hbp : (n == p.1) = false := by rw [h]; exact hbk
      simp [List.lookup, hbk, hbp]
    · rw [if_neg h]
      simp only [List.lookup]
      cases hb : (n == p.1) <;> simp [hb, ih]

/-- The update fold of a synchronous step does not touch a key that is
not the name of any logic node. -/
theorem foldl_update_lookup_skip (cur : PState) (n : String) :
    ∀ (ns : List (String × PNode)) (acc : PState),
      (∀ p ∈ ns, p.2.ptype = "logic" → p.1 ≠ n) →
      ((ns.foldl (fun next p =>
          if p.2.ptype = "logic" then
            setVal next p.1 (evaluate_logic_rule_perturb p.2.logic cur)
          else next) acc).lookup n) = acc.lookup n := by
  intro ns
  induction ns with
  | nil => intro acc _; rfl
  | cons p rest ih =>
    intro acc h
    simp only [List.foldl_cons]
    by_cases hp : p.2.ptype = "logic"
    · rw [if_pos hp]
      rw [ih _ (fun q hq => h q (List.mem_cons_of_mem p hq))]
      exact setVal_lookup_ne p.1 n _ (h p (List.mem_cons_self p rest) hp) acc
    · rw [if_neg hp]
      exact ih _ (fun q hq => h q (List.mem_cons_of_mem p hq))

/-- A synchronous step leaves every non-logic node unchanged. -/
theorem stepBaseline_lookup_nonlogic (m : NetworkModel) (cur : PState)
    (n : String) (h : ∀ p ∈ m.nodes, p.2.ptype = "logic" → p.1 ≠ n) :
    (stepBaseline m cur).lookup n = cur.lookup n :=
  foldl_update_lookup_skip cur n m.nodes cur h

/-- The whole simulation loop leaves every non-logic node unchanged. -/
theorem simLoop_lookup_nonlogic (m : NetworkModel) (n : String)
    (h : ∀ p ∈ m.nodes, p.2.ptype = "logic" → p.1 ≠ n) :
    ∀ (fuel : Nat) (cur : PState),
      (simLoop m fuel cur).lookup n = cur.lookup n := by
  intro fuel
  induction fuel with
  | zero => intro cur; rfl
  | succ k ih =>
    intro cur
    simp only [simLoop]
    by_cases hfix : stepBaseline m cur = cur
    · rw [if_pos hfix]
    · rw [if_neg hfix]
      rw [ih (stepBaseline m cur)]
      exact stepBaseline_lookup_nonlogic m cur n h

/-- C6: in baseline mode every non-input node starts at False and every
input node is held at its supplied condition value for the whole trial;
for the network of input A true and logic B with rule A, the first
synchronous step reaches the state A true, B true, which is a fixed
point, and the baseline simulation returns it. -/
theorem c6_baseline_mode :
    (∀ (m : NetworkModel) (n : String) (nd : PNode),
        (m.nodes.map Prod.fst).Nodup → (n, nd) ∈ m.nodes →
        nd.ptype ≠ "input" → (initBaseline m).lookup n = some false) ∧
      (∀ (m : NetworkModel) (n : String) (nd : PNode) (steps : Nat),
        (m.nodes.map Prod.fst).Nodup → (n, nd) ∈ m.nodes →
        nd.ptype = "input" →
        (simulate_baseline m steps).lookup n =
          some (((firstCondition m).lookup n).getD false)) ∧
      stepBaseline exNet (initBaseline exNet) = [("A", true), ("B", true)] ∧
      stepBaseline exNet [("A", true), ("B", true)] = [("A", true), ("B", true)] ∧
      simulate_baseline exNet baselineSteps = [("A", true), ("B", true)] := by
  refine ⟨?_, ?_, by decide, by decide, by decide⟩
  · intro m n nd hnodup hmem hni
    rw [initBaseline_lookup m n nd hnodup hmem]
    rw [if_neg hni]
  · intro m n nd steps hnodup hmem hinput
    have hskip : ∀ p ∈ m.nodes, p.2.ptype = "logic" → p.1 ≠ n := by
      intro p hp hlogic heq
      have hpair : (n, p.2) ∈ m.nodes := by
        rw [← heq]; exact hp
      have := nodup_keys_mem_value m.nodes n p.2 nd hnodup hpair hmem
      rw [this] at hlogic
      rw [hinput] at hlogic
      exact absurd hlogic (by decide)
    unfold simulate_baseline
    rw [simLoop_lookup_nonlogic m n hskip steps (initBaseline m)]
    rw [initBaseline_lookup m n nd hnodup hmem]
    rw [if_pos hinput]

/-- C6 witness: in the two-node network, logic node B starts at False
and input node A is still True after the full baseline simulation. -/
theorem c6_baseline_witness :
    (initBaseline exNet).lookup "B" = some false ∧
      (simulate_baseline exNet baselineSteps).lookup "A" =
        some (((firstCondition exNet).lookup "A").getD false) :=
  ⟨c6_baseline_mode.1 exNet "B" { ptype := "logic", logic := "A" }
      (by decide) (by decide) (by decide),
    c6_baseline_mode.2.1 exNet "A" { ptype := "input", logic := "" }
      baselineSteps (by decide) (by decide) rfl⟩

/-! The three-way perturbation classification. -/

/-- Membership in the robust and sensitive lists accumulated by the
classification fold. -/
theorem perturbClassifyStep_fold_mem (m : NetworkModel) (baseline : PState) :
    ∀ (names : List String)
      (kos oes : List PerturbationOutcome) (rob sens : List String)
      (name : String),
      (name ∈ (names.foldl (perturbClassifyStep m baseline)
          (kos, oes, rob, sens)).2.2.1 ↔
        name ∈ rob ∨ (name ∈ names ∧
          robustTest (test_knockout m name baseline)
            (test_overexpression m name baseline))) ∧
      (name ∈ (names.foldl (perturbClassifyStep m baseline)
          (kos, oes, rob, sens)).2.2.2 ↔
        name ∈ sens ∨ (name ∈ names ∧
          ¬ robustTest (test_knockout m name baseline)
              (test_overexpression m name baseline) ∧
            sensitiveTest (test_knockout m name baseline)
              (test_overexpression m name baseline))) := by
  intro names
  induction names with
  | nil =>
    intro kos oes rob sens name
    simp
  | cons n0 rest ih =>
    intro kos oes rob sens name
    simp only [List.foldl_cons]
    constructor
    · rw [(ih _ _ _ _ name).1]
      simp only [perturbClassifyStep]
      by_cases hr : robustTest (test_knockout m n0 baseline)
          (test_overexpression m n0 baseline)
      · rw [if_pos hr]
        simp only [List.mem_append, List.mem_cons, List.mem_singleton,
          List.not_mem_nil, or_false]
        constructor
        · rintro ((h | h) | h)
          · exact Or.inl h
          · exact Or.inr ⟨Or.inl h, h ▸ hr⟩
          · exact Or.inr ⟨Or.inr h.1, h.2⟩
        · rintro (h | ⟨(h | h), hc⟩)
          · exact Or.inl (Or.inl h)
          · exact Or.inl (Or.inr h)
          · exact Or.inr ⟨h, hc⟩
      · rw [if_neg hr]
        simp only [List.mem_cons]
        constructor
        · rintro (h | h)
          · exact Or.inl h
          · exact Or.inr ⟨Or.inr h.1, h.2⟩
        · rintro (h | ⟨(h | h), hc⟩)
          · exact Or.inl h
          · exact absurd (h ▸ hc) hr
          · exact Or.inr ⟨h, hc⟩
    · rw [(ih _ _ _ _ name).2]
      simp only [perturbClassifyStep]
      by_cases hs : ¬ robustTest (test_knockout m n0 baseline)
            (test_overexpression m n0 baseline) ∧
          sensitiveTest (test_knockout m n0 baseline)
            (test_overexpression m n0 baseline)
      · rw [if_pos hs]
        simp only [List.mem_append, List.mem_cons, List.mem_singleton,
          List.not_mem_nil, or_false]
        constructor
        · rintro ((h | h) | h)
          · exact Or.inl h
          · exact Or.inr ⟨Or.inl h, h ▸ hs.1, h ▸ hs.2⟩
          · exact Or.inr ⟨Or.inr h.1, h.2⟩
        · rintro (h | ⟨(h | h), hc⟩)
          · exact Or.inl (Or.inl h)
          · exact Or.inl (Or.inr h)
          · exact Or.inr ⟨h, hc⟩
      · rw [if_neg hs]
        simp only [List.mem_cons]
        constructor
        · rintro (h | h)
          · exact Or.inl h
          · exact Or.inr ⟨Or.inr h.1, h.2⟩
        · rintro (h | ⟨(h | h), hc⟩)
          · exact Or.inl h
          · exact absurd (h ▸ hc) hs
          · exact Or.inr ⟨h, hc⟩

/-- C8: for every logic node the classification is three-way: the node
is robust exactly when both its knockout and overexpression impact
scores are below 0.1; sensitive exactly when it is not robust and either
score exceeds 0.5; and no node is both, so the middle band stays
unclassified. -/
theorem c8_three_way_classification (m : NetworkModel) (name : String) :
    (name ∈ (analyze_perturbations m).robust_nodes ↔
        name ∈ logicNodeNames m ∧
          robustTest
            (test_knockout m name (simulate_baseline m baselineSteps))
            (test_overexpression m name (simulate_baseline m baselineSteps))) ∧
      (name ∈ (analyze_perturbations m).sensitive_nodes ↔
        name ∈ logicNodeNames m ∧
          ¬ robustTest
              (test_knockout m name (simulate_baseline m baselineSteps))
              (test_overexpression m name (simulate_baseline m baselineSteps)) ∧
            sensitiveTest
              (test_knockout m name (simulate_baseline m baselineSteps))
              (test_overexpression m name (simulate_baseline m baselineSteps))) ∧
      ¬ (name ∈ (analyze_perturbations m).robust_nodes ∧
          name ∈ (analyze_perturbations m).sensitive_nodes) := by
  have h := perturbClassifyStep_fold_mem m (simulate_baseline m baselineSteps)
    (logicNodeNames m) [] [] [] [] name
  refine ⟨?_, ?_, ?_⟩
  · rw [show (analyze_perturbations m).robust_nodes =
      ((logicNodeNames m).foldl
        (perturbClassifyStep m (simulate_baseline m baselineSteps))
        ([], [], [], [])).2.2.1 from rfl]
    rw [h.1]
    simp
  · rw [show (analyze_perturbations m).sensitive_nodes =
      ((logicNodeNames m).foldl
        (perturbClassifyStep m (simulate_baseline m baselineSteps))
        ([], [], [], [])).2.2.2 from rfl]
    rw [h.2]
    simp
  · rintro ⟨h1, h2⟩
    rw [show (analyze_perturbations m).robust_nodes =
      ((logicNodeNames m).foldl
        (perturbClassifyStep m (simulate_baseline m baselineSteps))
        ([], [], [], [])).2.2.1 from rfl] at h1
    rw [show (analyze_perturbations m).sensitive_nodes =
      ((logicNodeNames m).foldl
        (perturbClassifyStep m (simulate_baseline m baselineSteps))
        ([], [], [], [])).2.2.2 from rfl] at h2
    rw [h.1] at h1
    rw [h.2] at h2
    simp at h1 h2
    exact h2.2.1 h1.2

/-! Key preservation through the baseline simulation, used to relate a
knockout run to the unperturbed run. -/

/-- Dict assignment to an existing key preserves the key list. -/
theorem keys_setVal :
    ∀ (s : PState) (k : String) (v : Bool), k ∈ s.map Prod.fst →
      (setVal s k v).map Prod.fst = s.map Prod.fst := by
  intro s
  induction s with
  | nil => intro k v h; exact absurd h (List.not_mem_nil _)
  | cons p rest ih =>
    intro k v h
    simp only [setVal]
    by_cases hp : p.1 = k
    · rw [if_pos hp]
      simp [hp]
    · rw [if_neg hp]
      simp only [List.map_cons]
      rw [ih k v ?_]
      rcases List.mem_cons.mp h with h | h
      · exact absurd h.symm hp
      · exact h

/-- The synchronous update fold preserves the key list when every
updated node name is already a key. -/
theorem keys_update_fold (val : String × PNode → Bool) :
    ∀ (ns : List (String × PNode)) (acc : PState),
      (∀ p ∈ ns, p.1 ∈ acc.map Prod.fst) →
      ((ns.foldl (fun next p =>
          if p.2.ptype = "logic" then setVal next p.1 (val p)
          else next) acc).map Prod.fst) = acc.map Prod.fst := by
  intro ns
  induction ns with
  | nil => intro acc _; rfl
  | cons p rest ih =>
    intro acc h
    simp only [List.foldl_cons]
    by_cases hp : p.2.ptype = "logic"
    · rw [if_pos hp]
      have hk := keys_setVal acc p.1 (val p) (h p (List.mem_cons_self p rest))
      rw [ih (setVal acc p.1 (val p)) ?_]
      · exact hk
      · intro q hq
        rw [hk]
        exact h q (List.mem_cons_of_mem p hq)
    · rw [if_neg hp]
      exact ih acc (fun q hq => h q (List.mem_cons_of_mem p hq))

/-- A synchronous step preserves the key list of an aligned state. -/
theorem keys_stepBaseline (m : NetworkModel) (s : PState)
    (h : s.map Prod.fst = m.nodes.map Prod.fst) :
    (stepBaseline m s).map Prod.fst = s.map Prod.fst := by
  unfold stepBaseline
  exact keys_update_fold
    (fun p => evaluate_logic_rule_perturb p.2.logic s) m.nodes s
    (fun p hp => by rw [h]; exact List.mem_map_of_mem Prod.fst hp)

/-- The simulation loop preserves the key list of an aligned state. -/
theorem keys_simLoop (m : NetworkModel) :
    ∀ (fuel : Nat) (s : PState),
      s.map Prod.fst = m.nodes.map Prod.fst →
      (simLoop m fuel s).map Prod.fst = s.map Prod.fst := by
  intro fuel
  induction fuel with
  | zero => intro s _; rfl
  | succ k ih =>
    intro s h
    simp only [simLoop]
    by_cases hfix : stepBaseline m s = s
    · rw [if_pos hfix]
    · rw [if_neg hfix]
      rw [ih (stepBaseline m s) (by rw [keys_stepBaseline m s h, h])]
      exact keys_stepBaseline m s h

/-- The baseline initial state has exactly the node names as keys. -/
theorem keys_initBaseline (m : NetworkModel) :
    (initBaseline m).map Prod.fst = m.nodes.map Prod.fst := by
  unfold initBaseline
  rw [List.map_map]
  rfl

/-- Forcing a logic rule does not change the node names. -/
theorem keys_forceLogic (m : NetworkModel) (t lit : String) :
    (forceLogic m t lit).nodes.map Prod.fst = m.nodes.map Prod.fst := by
  unfold forceLogic
  by_cases h : (m.nodes.lookup t).isSome
  · rw [if_pos h]
    simp only []
    rw [List.map_map]
    apply List.map_congr_left
    intro p _
    by_cases hp : p.1 = t
    · simp [hp]
    · simp [hp]
  · rw [if_neg h]

/-- Forcing a logic rule does not change the input conditions. -/
theorem firstCondition_forceLogic (m : NetworkModel) (t lit : String) :
    firstCondition (forceLogic m t lit) = firstCondition m := by
  unfold forceLogic
  by_cases h : (m.nodes.lookup t).isSome
  · rw [if_pos h]
    rfl
  · rw [if_neg h]

/-- Forcing a logic rule does not change the baseline initial state:
initialization reads only node types and input conditions. -/
theorem initBaseline_forceLogic (m : NetworkModel) (t lit : String) :
    initBaseline (forceLogic m t lit) = initBaseline m := by
  unfold initBaseline
  rw [firstCondition_forceLogic]
  unfold forceLogic
  by_cases h : (m.nodes.lookup t).isSome
  · rw [if_pos h]
    simp only []
    rw [List.map_map]
    apply List.map_congr_left
    intro p _
    by_cases hp : p.1 = t
    · simp [hp]
    · simp [hp]
  · rw [if_neg h]

/-- With unique keys, membership in a state determines its lookup. -/
theorem lookup_mem_nodup :
    ∀ (s : PState) (k : String) (v : Bool),
      (s.map Prod.fst).Nodup → (k, v) ∈ s → s.lookup k = some v := by
  intro s
  induction s with
  | nil => intro k v _ h; exact absurd h (List.not_mem_nil _)
  | cons p rest ih =>
    intro k v hnodup hmem
    rw [List.map_cons, List.nodup_cons] at hnodup
    rcases List.mem_cons.mp hmem with h | h
    · rw [← h]
      simp [List.lookup]
    · have hne : p.1 ≠ k := by
        intro he
        apply hnodup.1
        rw [he]
        exact List.mem_map_of_mem Prod.fst h
      have hb : (k == p.1) = false := beq_eq_false_iff_ne.mpr (Ne.symm hne)
      simp only [List.lookup, hb]
      exact ih k v hnodup.2 h

/-- Two key-aligned states agreeing away from t have equal lookups away
from t. -/
theorem lookup_eq_of_projOff (t : String) :
    ∀ (s s2 : PState), s.map Prod.fst = s2.map Prod.fst →
      projOff t s = projOff t s2 →
      ∀ n, n ≠ t → s.lookup n = s2.lookup n := by
  intro s
  induction s with
  | nil =>
    intro s2 hk _ n _
    cases s2 with
    | nil => rfl
    | cons q rest2 => exact absurd hk (by simp)
  | cons p rest ih =>
    intro s2 hk hp n hn
    cases s2 with
    | nil => exact absurd hk (by simp)
    | cons q rest2 =>
      simp only [List.map_cons, List.cons.injEq] at hk
      by_cases hpt : p.1 = t
      · have hqt : q.1 = t := by rw [← hk.1, hpt]
        have hproj : projOff t rest = projOff t rest2 := by
          have h1 : (p.1 != t) = false := by simp [hpt]
          have h2 : (q.1 != t) = false := by simp [hqt]
          simpa [projOff, List.filter, h1, h2] using hp
        have hb1 : (n == p.1) = false :=
          beq_eq_false_iff_ne.mpr (by rw [hpt]; exact hn)
        have hb2 : (n == q.1) = false :=
          beq_eq_false_iff_ne.mpr (by rw [hqt]; exact hn)
        simp only [List.lookup, hb1, hb2]
        exact ih rest2 hk.2 hproj n hn
      · have hqt : q.1 ≠ t := by rw [← hk.1]; exact hpt
        have h1 : (p.1 != t) = true := by simp [hpt]
        have h2 : (q.1 != t) = true := by simp [hqt]
        have hp2 : p = q ∧ projOff t rest = projOff t rest2 := by
          have := hp
          simp only [projOff, List.filter, h1, h2] at this
          rw [List.cons.injEq] at this
          exact ⟨this.1, this.2⟩
        rcases hp2 with ⟨rfl, hproj⟩
        simp only [List.lookup]
        cases hb : (n == p.1) with
        | true => rfl
        | false => exact ih rest2 hk.2 hproj n hn

/-- A duplicate-free list whose members are all equal to t has at most
one element. -/
theorem nodup_const_length_le_one (t : String) :
    ∀ l : List String, l.Nodup → (∀ x ∈ l, x = t) → l.length ≤ 1 := by
  intro l
  cases l with
  | nil => intro _ _; simp
  | cons x rest =>
    cases rest with
    | nil => intro _ _; simp
    | cons y rest2 =>
      intro hnodup hall
      exfalso
      have hx : x = t := hall x (by simp)
      have hy : y = t := hall y (by simp)
      rw [List.nodup_cons] at hnodup
      apply hnodup.1
      rw [hx, ← hy]
      simp

/-- If one synchronous step leaves the off-t restriction unchanged, the
whole simulation loop leaves it unchanged, given step congruence away
from t. -/
theorem simLoop_projOff_stationary (m : NetworkModel) (t : String)
    (hcong : ∀ u u2 : PState,
      u.map Prod.fst = m.nodes.map Prod.fst →
      u2.map Prod.fst = m.nodes.map Prod.fst →
      projOff t u = projOff t u2 →
      projOff t (stepBaseline m u) = projOff t (stepBaseline m u2)) :
    ∀ (fuel : Nat) (s : PState),
      s.map Prod.fst = m.nodes.map Prod.fst →
      projOff t (stepBaseline m s) = projOff t s →
      projOff t (simLoop m fuel s) = projOff t s := by
  intro fuel
  induction fuel with
  | zero => intro s _ _; rfl
  | succ k ih =>
    intro s hk hfix
    simp only [simLoop]
    by_cases heq : stepBaseline m s = s
    · rw [if_pos heq]
    · rw [if_neg heq]
      have hk2 : (stepBaseline m s).map Prod.fst = m.nodes.map Prod.fst := by
        rw [keys_stepBaseline m s hk, hk]
      have hfix2 : projOff t (stepBaseline m (stepBaseline m s)) =
          projOff t (stepBaseline m s) := by
        rw [hcong (stepBaseline m s) s hk2 hk hfix, hfix]
      rw [ih (stepBaseline m s) hk2 hfix2, hfix]

/-- Bisimulation of the baseline loop of two models that agree away
from node t: if their synchronous steps agree on the off-t restriction,
the loops agree on the off-t restriction of their final states, even
when the two runs stop at different times. -/
theorem simLoop_projOff_bisim (m1 m2 : NetworkModel) (t : String)
    (hkm : m2.nodes.map Prod.fst = m1.nodes.map Prod.fst)
    (hstep : ∀ s s2 : PState,
      s.map Prod.fst = m1.nodes.map Prod.fst →
      s2.map Prod.fst = m1.nodes.map Prod.fst →
      projOff t s = projOff t s2 →
      projOff t (stepBaseline m1 s) = projOff t (stepBaseline m2 s2)) :
    ∀ (fuel : Nat) (s s2 : PState),
      s.map Prod.fst = m1.nodes.map Prod.fst →
      s2.map Prod.fst = m1.nodes.map Prod.fst →
      projOff t s = projOff t s2 →
      projOff t (simLoop m1 fuel s) = projOff t (simLoop m2 fuel s2) := by
  have hc1 : ∀ u u2 : PState,
      u.map Prod.fst = m1.nodes.map Prod.fst →
      u2.map Prod.fst = m1.nodes.map Prod.fst →
      projOff t u = projOff t u2 →
      projOff t (stepBaseline m1 u) = projOff t (stepBaseline m1 u2) := by
    intro u u2 hku hku2 hp
    have h1 := hstep u u2 hku hku2 hp
    have h2 := hstep u2 u2 hku2 hku2 rfl
    rw [h1, ← h2]
  have hc2 : ∀ u u2 : PState,
      u.map Prod.fst = m1.nodes.map Prod.fst →
      u2.map Prod.fst = m1.nodes.map Prod.fst →
      projOff t u = projOff t u2 →
      projOff t (stepBaseline m2 u) = projOff t (stepBaseline m2 u2) := by
    intro u u2 hku hku2 hp
    have h1 := hstep u u hku hku rfl
    have h2 := hstep u u2 hku hku2 hp
    rw [← h1, h2]
  intro fuel
  induction fuel with
  | zero => intro s s2 _ _ hp; exact hp
  | succ k ih =>
    intro s s2 hk hk2 hp
    have hn : projOff t (stepBaseline m1 s) = projOff t (stepBaseline m2 s2) :=
      hstep s s2 hk hk2 hp
    have hks1 : (stepBaseline m1 s).map Prod.fst = m1.nodes.map Prod.fst := by
      rw [keys_stepBaseline m1 s hk, hk]
    have hks2 : (stepBaseline m2 s2).map Prod.fst = m1.nodes.map Prod.fst := by
      rw [keys_stepBaseline m2 s2 (hk2.trans hkm.symm), hk2]
    simp only [simLoop]
    by_cases h1 : stepBaseline m1 s = s <;>
      by_cases h2 : stepBaseline m2 s2 = s2
    · rw [if_pos h1, if_pos h2]; exact hp
    · rw [if_pos h1, if_neg h2]
      have hpn : projOff t (stepBaseline m2 s2) = projOff t s := by
        rw [← hn, h1]
      have hfix : projOff t (stepBaseline m2 (stepBaseline m2 s2)) =
          projOff t (stepBaseline m2 s2) := by
        have h3 := hstep s (stepBaseline m2 s2) hk hks2 hpn.symm
        rw [h1] at h3
        rw [← h3, hpn]
      have hstat := simLoop_projOff_stationary m2 t
        (fun u u2 hku hku2 hpr =>
          hc2 u u2 (hku.trans hkm) (hku2.trans hkm) hpr)
        k (stepBaseline m2 s2) (hks2.trans hkm.symm) hfix
      rw [hstat, hpn]
    · rw [if_neg h1, if_pos h2]
      have hpn : projOff t (stepBaseline m1 s) = projOff t s2 := by
        rw [hn, h2]
      have hfix : projOff t (stepBaseline m1 (stepBaseline m1 s)) =
          projOff t (stepBaseline m1 s) := by
        have h3 := hstep (stepBaseline m1 s) s2 hks1 hk2 hpn
        rw [h3, h2, ← hpn]
      have hstat := simLoop_projOff_stationary m1 t hc1
        k (stepBaseline m1 s) hks1 hfix
      rw [hstat, hpn]
    · rw [if_neg h1, if_neg h2]
      exact ih (stepBaseline m1 s) (stepBaseline m2 s2) hks1 hks2 hn

/-- C7, amended: knocking out a node on which no other node depends (in
the semantic sense that every other node updates identically whether or
not the node is perturbed) can change only the knocked-out node itself:
every affected node is the target, and the impact score is at most one
over the node count; it is not 0.0 in general, because the final value
of the target itself is compared against the baseline too. -/
theorem c7_zero_dependent_knockout (m : NetworkModel) (t : String)
    (hnodup : (m.nodes.map Prod.fst).Nodup)
    (hstep : ∀ s s2 : PState,
      s.map Prod.fst = m.nodes.map Prod.fst →
      s2.map Prod.fst = m.nodes.map Prod.fst →
      projOff t s = projOff t s2 →
      projOff t (stepBaseline m s) =
        projOff t (stepBaseline (forceLogic m t "False") s2)) :
    (∀ x ∈ (test_knockout m t
        (simulate_baseline m baselineSteps)).affected_nodes, x = t) ∧
      (test_knockout m t (simulate_baseline m baselineSteps)).impact_score ≤
        1 / ((simulate_baseline m baselineSteps).length : ℚ) := by
  have hkm : (forceLogic m t "False").nodes.map Prod.fst =
      m.nodes.map Prod.fst := keys_forceLogic m t "False"
  set B := simulate_baseline m baselineSteps with hBdef
  set K := simulate_baseline (forceLogic m t "False") baselineSteps with hKdef
  have hkB : B.map Prod.fst = m.nodes.map Prod.fst := by
    rw [hBdef]
    unfold simulate_baseline
    rw [keys_simLoop m baselineSteps (initBaseline m) (keys_initBaseline m)]
    exact keys_initBaseline m
  have hkK : K.map Prod.fst = m.nodes.map Prod.fst := by
    rw [hKdef]
    unfold simulate_baseline
    rw [keys_simLoop _ baselineSteps _ (keys_initBaseline _)]
    rw [keys_initBaseline, hkm]
  have hproj : projOff t B = projOff t K := by
    rw [hBdef, hKdef]
    unfold simulate_baseline
    rw [initBaseline_forceLogic m t "False"]
    exact simLoop_projOff_bisim m (forceLogic m t "False") t hkm hstep
      baselineSteps (initBaseline m) (initBaseline m)
      (keys_initBaseline m) (keys_initBaseline m) rfl
  have hlook : ∀ n, n ≠ t → B.lookup n = K.lookup n :=
    lookup_eq_of_projOff t B K (by rw [hkB, hkK]) hproj
  have haff : ∀ x ∈ (B.filter (changedTest K)).map Prod.fst, x = t := by
    intro x hx
    rcases List.mem_map.mp hx with ⟨p, hpmem, hpx⟩
    by_contra hxt
    have hpB : p ∈ B := (List.mem_filter.mp hpmem).1
    have hchanged := (List.mem_filter.mp hpmem).2
    unfold changedTest at hchanged
    cases hKl : K.lookup p.1 with
    | none => rw [hKl] at hchanged; simp at hchanged
    | some w =>
      rw [hKl] at hchanged
      simp at hchanged
      have hBl : B.lookup p.1 = some p.2 :=
        lookup_mem_nodup B p.1 p.2 (by rw [hkB]; exact hnodup)
          (by rw [Prod.mk.eta]; exact hpB)
      have heq := hlook p.1 (by rw [hpx]; exact hxt)
      rw [hBl, hKl] at heq
      simp at heq
      exact hchanged heq
  have hcnt : (B.filter (changedTest K)).length ≤ 1 := by
    have hsub : List.Sublist ((B.filter (changedTest K)).map Prod.fst)
        (B.map Prod.fst) :=
      (List.filter_sublist B).map Prod.fst
    have hndB : (B.map Prod.fst).Nodup := by rw [hkB]; exact hnodup
    have hnd : ((B.filter (changedTest K)).map Prod.fst).Nodup :=
      hndB.sublist hsub
    have h1 := nodup_const_length_le_one t _ hnd haff
    rw [List.length_map] at h1
    exact h1
  constructor
  · intro x hx
    exact haff x hx
  · show calculate_impact B K ≤ 1 / (B.length : ℚ)
    by_cases hBe : B = []
    · rw [calculate_impact, if_pos (Or.inl hBe)]
      rw [hBe]
      simp
    · have hKe : K ≠ [] := by
        intro h0
        apply hBe
        have : B.map Prod.fst = [] := by
          rw [hkB, ← hkK, h0]
          rfl
        exact List.map_eq_nil_iff.mp this
      rw [calculate_impact, if_neg (by simp [hBe, hKe])]
      have hlenpos : 0 < (B.length : ℚ) := by
        have : 0 < B.length := List.length_pos.mpr hBe
        exact_mod_cast this
      have hcast : ((B.filter (changedTest K)).length : ℚ) ≤ 1 := by
        exact_mod_cast hcnt
      exact (div_le_div_iff_of_pos_right hlenpos).mpr hcast

/-- In the three-node network, node C has no dependents: the
synchronous steps of the unperturbed model and of the C-knockout model
agree away from C on every pair of aligned states agreeing away from
C. -/
theorem threeNet_step_congr :
    ∀ s s2 : PState,
      s.map Prod.fst = threeNet.nodes.map Prod.fst →
      s2.map Prod.fst = threeNet.nodes.map Prod.fst →
      projOff "C" s = projOff "C" s2 →
      projOff "C" (stepBaseline threeNet s) =
        projOff "C" (stepBaseline (forceLogic threeNet "C" "False") s2) := by
  intro s s2 hk hk2 hp
  rcases s with _ | ⟨⟨n1, a⟩, _ | ⟨⟨n2, b⟩, _ | ⟨⟨n3, c⟩, _ | ⟨p4, s4⟩⟩⟩⟩ <;>
    simp only [threeNet, List.map_cons, List.map_nil,
      List.cons.injEq] at hk
  · exact absurd hk (by simp)
  · exact absurd hk (by simp)
  · exact absurd hk (by simp)
  case cons.mk.cons.mk.cons.mk.nil =>
    obtain ⟨rfl, rfl, rfl, -⟩ := hk
    rcases s2 with _ | ⟨⟨m1, a2⟩, _ | ⟨⟨m2, b2⟩, _ | ⟨⟨m3, c2⟩, _ | ⟨q4, u4⟩⟩⟩⟩ <;>
      simp only [threeNet, List.map_cons, List.map_nil,
        List.cons.injEq] at hk2
    · exact absurd hk2 (by simp)
    · exact absurd hk2 (by simp)
    · exact absurd hk2 (by simp)
    case cons.mk.cons.mk.cons.mk.nil =>
      obtain ⟨rfl, rfl, rfl, -⟩ := hk2
      have hp2 := hp
      simp only [projOff, List.filter] at hp2
      norm_num at hp2
      obtain ⟨rfl, rfl⟩ := hp2
      cases a <;> cases b <;> cases c <;> cases c2 <;> decide
    · exact absurd hk2 (by simp)
  · exact absurd hk (by simp)

/-- C7 witness: in the network with input A true and logic nodes B and
C both reading A, knocking out the dependent-free node C affects at
most C itself and its impact score is bounded by one over the node
count. -/
theorem c7_knockout_witness :
    (∀ x ∈ (test_knockout threeNet "C"
        (simulate_baseline threeNet baselineSteps)).affected_nodes,
        x = "C") ∧
      (test_knockout threeNet "C"
          (simulate_baseline threeNet baselineSteps)).impact_score ≤
        1 / ((simulate_baseline threeNet baselineSteps).length : ℚ) :=
  c7_zero_dependent_knockout threeNet "C" (by decide) threeNet_step_congr

/-- C7 counterexample: in the one-node network whose logic node B has
the constant rule True, no node depends on B, yet knocking B out flips
its own steady value from True to False, giving impact score one, not
zero: the impact comparison includes the knocked-out node itself. -/
theorem c7_counterexample :
    (test_knockout koNet "B"
        (simulate_baseline koNet baselineSteps)).impact_score = 1 ∧
      (1 : ℚ) ≠ 0 := by
  constructor
  · have hB : simulate_baseline koNet baselineSteps = [("B", true)] := by
      decide
    have hK : simulate_baseline (forceLogic koNet "B" "False") baselineSteps =
        [("B", false)] := by decide
    show calculate_impact (simulate_baseline koNet baselineSteps)
        (simulate_baseline (forceLogic koNet "B" "False") baselineSteps) = 1
    rw [hB, hK]
    have hf : (([("B", true)] : PState).filter
        (changedTest [("B", false)])) = [("B", true)] := by decide
    rw [calculate_impact, if_neg (by simp)]
    rw [hf]
    norm_num
  · norm_num

end GeneNet
